import Mathlib

/-!
Shallow embedding of the adoption simulator in `streamlit_app.py`.

The script draws a Pareto income sample, gates it by an income threshold,
seeds initial adopters with `np.random.choice`, and then runs a
Bass-style diffusion loop for `time_periods` steps, recording the adopter
count at the start of each step.

Randomness is modelled by explicit parameters: `paretoDraw i` is the i-th
raw Pareto variate produced by `np.random.pareto`, `sampleDraw` is the index
list returned by `np.random.choice` (its guarantees — distinctness, size,
membership in the pool — appear as hypotheses of theorems that need them),
and `u t i` is the `np.random.rand()` value consumed for agent `i` during
period `t` (one draw per eligible agent per period).  Incomes and
probabilities are modelled as rationals.
-/

namespace AdoptionSim

/- The library marks the rational-number operations `@[irreducible]`, which
blocks `decide` from evaluating concrete simulator runs; restore
definitional reducibility locally for this development. -/
attribute [local semireducible] Rat.mul Rat.add Rat.sub Rat.inv Rat.ofScientific

/-- Failure kinds.  `valueError` and `zeroDivisionError` model the Python
exceptions that the numpy calls in the script can raise; `insufficientMarket`
and `invalidParameter` are the error kinds named by the design document,
listed here so that statements about them can be formalised (the script
itself never produces them). -/
inductive SimError where
  | valueError
  | zeroDivisionError
  | insufficientMarket
  | invalidParameter
deriving DecidableEq, Repr

/-- The six scalar inputs read from the sidebar sliders.  `populationSize`
is an integer (so that claims about non-positive populations can be stated);
`timePeriods` is the loop bound of `range(time_periods)`. -/
structure Config where
  populationSize : Int
  gini : ℚ
  p : ℚ
  q : ℚ
  incomeThreshold : ℚ
  timePeriods : ℕ
deriving DecidableEq, Repr

/-- Python `1/x`: raises `ZeroDivisionError` on a zero float. -/
def pyInv (x : ℚ) : Except SimError ℚ :=
  if x = 0 then .error .zeroDivisionError else .ok (1 / x)

/-- `np.random.pareto(a, n)`: raises `ValueError` when the shape `a` is not
positive or the size `n` is negative; otherwise returns `n` variates, here
taken from the ambient source `draw`. -/
def npPareto (a : ℚ) (n : Int) (draw : ℕ → ℚ) : Except SimError (List ℚ) :=
  if a ≤ 0 ∨ n < 0 then .error .valueError
  else .ok ((List.range n.toNat).map draw)

/-- `np.random.choice(pool, size=k, replace=False)`: raises `ValueError`
when the sample size `k` exceeds the pool size (it cannot sample without
replacement from too few elements); otherwise returns `k` distinct members
of the pool, here taken from the ambient source `sampleDraw`. -/
def npChoice (pool : List ℕ) (k : ℕ) (sampleDraw : List ℕ) :
    Except SimError (List ℕ) :=
  if pool.length < k then .error .valueError else .ok sampleDraw

/-- `max(10, population_size//100)`, the requested initial-adopter count. -/
def initialAdoptersCount (N : ℕ) : ℕ := max 10 (N / 100)

/-- `np.sum(has_adopted)` (and `np.sum(can_afford)`): number of `true`
entries of a boolean vector. -/
def boolSum (v : List Bool) : ℕ := v.count true

/-- `np.where(~has_adopted & can_afford)[0]`: the ascending list of indices
that are not yet adopted and affordable. -/
def potentialAdoptersIdx (has_adopted can_afford : List Bool) : List ℕ :=
  (List.range has_adopted.length).filter
    (fun i => has_adopted.getD i false = false ∧ can_afford.getD i false = true)

/-- `prob_adopt = p + q * (current_adopters / population_size)`. -/
def probAdopt (p q : ℚ) (currentAdopters N : ℕ) : ℚ :=
  p + q * ((currentAdopters : ℚ) / (N : ℚ))

/-- The inner per-agent loop of one period: scan the precomputed eligible
indices in order and set `has_adopted[idx] = True` whenever that agent's
uniform draw is below `prob_adopt` (computed from the adopter count frozen
at the start of the period). -/
def stepAgents (p q : ℚ) (N : ℕ) (currentAdopters : ℕ) (u : ℕ → ℚ)
    (idxs : List ℕ) (has_adopted : List Bool) : List Bool :=
  idxs.foldl
    (fun st idx => if u idx < probAdopt p q currentAdopters N then st.set idx true else st)
    has_adopted

/-- One iteration of the simulation loop body acting on the adoption state:
freeze `current_adopters`, then run the per-agent scan. -/
def stepSim (p q : ℚ) (N : ℕ) (can_afford : List Bool) (u : ℕ → ℚ)
    (has_adopted : List Bool) : List Bool :=
  stepAgents p q N (boolSum has_adopted) u
    (potentialAdoptersIdx has_adopted can_afford) has_adopted

/-- The simulation loop `for t in range(time_periods)`: starting at period
index `t`, run `remaining` further periods; each period first appends the
pre-update adopter count to the timeline and then applies the per-agent
updates.  Returns the timeline segment and the final adoption state. -/
def runLoop (p q : ℚ) (N : ℕ) (can_afford : List Bool) (u : ℕ → ℕ → ℚ)
    (t : ℕ) : ℕ → List Bool → List ℕ × List Bool
  | 0, has_adopted => ([], has_adopted)
  | remaining + 1, has_adopted =>
    let current_adopters := boolSum has_adopted
    let adopted' := stepSim p q N can_afford (u t) has_adopted
    let rest := runLoop p q N can_afford u (t + 1) remaining adopted'
    (current_adopters :: rest.1, rest.2)

/-- The adoption state reached from `has_adopted` after running periods
`t, t+1, …, t+k-1` of the loop. -/
def stateAfter (p q : ℚ) (N : ℕ) (can_afford : List Bool) (u : ℕ → ℕ → ℚ)
    (t : ℕ) (has_adopted : List Bool) : ℕ → List Bool
  | 0 => has_adopted
  | k + 1 => stepSim p q N can_afford (u (t + k))
      (stateAfter p q N can_afford u t has_adopted k)

/-- Everything the script computes and hands to the charts/metrics. -/
structure SimResult where
  incomes : List ℚ
  can_afford : List Bool
  adoption_timeline : List ℕ
  has_adopted : List Bool
deriving DecidableEq, Repr

/-- `incomes = np.random.pareto(1/gini, population_size) * 20000`: the
income sample, or the Python exception the line raises. -/
def simIncomes (cfg : Config) (paretoDraw : ℕ → ℚ) : Except SimError (List ℚ) := do
  let shape ← pyInv cfg.gini
  let raw ← npPareto shape cfg.populationSize paretoDraw
  return raw.map (fun x => x * 20000)

/-- `can_afford = incomes >= income_threshold`. -/
def mkCanAfford (incomes : List ℚ) (threshold : ℚ) : List Bool :=
  incomes.map (fun x => decide (threshold ≤ x))

/-- `np.where(can_afford)[0]`: ascending indices of the affordable agents. -/
def affordIdx (can_afford : List Bool) (N : ℕ) : List ℕ :=
  (List.range N).filter (fun i => can_afford.getD i false = true)

/-- `has_adopted = np.zeros(population_size, dtype=bool)` followed by
`has_adopted[initial_adopters] = True`. -/
def initAdopted (N : ℕ) (initial_adopters : List ℕ) : List Bool :=
  initial_adopters.foldl (fun st i => st.set i true) (List.replicate N false)

/-- The whole run behind the "Run Simulation" button, from the income draw
to the final adoption state.  Failure propagates the Python exception that
numpy raises; there is no validation code of the script's own. -/
def runSimulation (cfg : Config) (paretoDraw : ℕ → ℚ) (sampleDraw : List ℕ)
    (u : ℕ → ℕ → ℚ) : Except SimError SimResult := do
  let incomes ← simIncomes cfg paretoDraw
  let can_afford := mkCanAfford incomes cfg.incomeThreshold
  let N := cfg.populationSize.toNat
  let initial_adopters ←
    npChoice (affordIdx can_afford N) (initialAdoptersCount N) sampleDraw
  let has_adopted0 := initAdopted N initial_adopters
  let out := runLoop cfg.p cfg.q N can_afford u 0 cfg.timePeriods has_adopted0
  return { incomes := incomes
           can_afford := can_afford
           adoption_timeline := out.1
           has_adopted := out.2 }

/-- `total_addressable_market = np.sum(can_afford)`. -/
def totalAddressableMarket (r : SimResult) : ℕ := boolSum r.can_afford

/-- `final_adopters = adoption_timeline[-1]` (the timeline is non-empty for
every run with a positive number of periods). -/
def finalAdopters (r : SimResult) : ℕ := r.adoption_timeline.getLastD 0

/-- `market_penetration = (final_adopters / total_addressable_market) * 100
if total_addressable_market > 0 else 0`. -/
def marketPenetration (r : SimResult) : ℚ :=
  if 0 < totalAddressableMarket r then
    ((finalAdopters r : ℚ) / (totalAddressableMarket r : ℚ)) * 100
  else 0

/-! ### Helper lemmas: the set-`true` folds -/

/-- A boolean vector reads `true` at `j` (with `false` default) iff index
`j` is in range and holds `true`. -/
theorem getD_eq_true_iff (l : List Bool) (j : ℕ) :
    l.getD j false = true ↔ l[j]? = some true := by
  rw [List.getD_eq_getElem?_getD]
  cases h : l[j]? with
  | none => simp
  | some b => cases b <;> simp

/-- Conditionally setting entries to `true` does not change the length. -/
theorem foldl_setTrue_length (cond : ℕ → Prop) [DecidablePred cond]
    (idxs : List ℕ) : ∀ st : List Bool,
    (idxs.foldl (fun s i => if cond i then s.set i true else s) st).length
      = st.length := by
  induction idxs with
  | nil => intro st; rfl
  | cons i is ih =>
    intro st
    simp only [List.foldl_cons]
    rw [ih]
    split <;> simp

/-- Pointwise description of the conditional set-`true` fold: entry `j`
becomes `true` exactly when `j` is scanned and satisfies the condition;
otherwise it is untouched. -/
theorem foldl_setTrue_getElem (cond : ℕ → Prop) [DecidablePred cond]
    (idxs : List ℕ) : ∀ (st : List Bool) (j : ℕ),
    (idxs.foldl (fun s i => if cond i then s.set i true else s) st)[j]? =
      if j ∈ idxs ∧ cond j then st[j]?.map (fun _ => true) else st[j]? := by
  induction idxs with
  | nil => intro st j; simp
  | cons i is ih =>
    intro st j
    simp only [List.foldl_cons]
    rw [ih]
    by_cases hji : j = i
    · subst hji
      by_cases hc : cond j
      · have hset : (if cond j then st.set j true else st) = st.set j true :=
          if_pos hc
        rw [hset, List.getElem?_set_self']
        by_cases hmem : j ∈ is
        · rw [if_pos ⟨hmem, hc⟩, if_pos ⟨List.mem_cons_self j is, hc⟩]
          cases st[j]? <;> simp [Function.const]
        · rw [if_neg (fun h => hmem h.1), if_pos ⟨List.mem_cons_self j is, hc⟩]
          cases st[j]? <;> simp [Function.const]
      · have hset : (if cond j then st.set j true else st) = st := if_neg hc
        rw [hset, if_neg (fun h => hc h.2), if_neg (fun h => hc h.2)]
    · have hset : (if cond i then st.set i true else st)[j]? = st[j]? := by
        split
        · exact List.getElem?_set_ne (fun h => hji h.symm)
        · rfl
      rw [hset]
      by_cases hmem : j ∈ is
      · by_cases hc : cond j
        · rw [if_pos ⟨hmem, hc⟩, if_pos ⟨List.mem_cons_of_mem i hmem, hc⟩]
        · rw [if_neg (fun h => hc h.2), if_neg (fun h => hc h.2)]
      · rw [if_neg (fun h => hmem h.1),
          if_neg (fun h => (List.mem_cons.mp h.1).elim hji hmem)]

/-- Setting an entry to `true` increments the `true`-count exactly when the
entry was in range and `false`. -/
theorem count_true_set (l : List Bool) : ∀ i : ℕ,
    (l.set i true).count true =
      if l[i]? = some false then l.count true + 1 else l.count true := by
  induction l with
  | nil => intro i; simp
  | cons b t ih =>
    intro i
    cases i with
    | zero => cases b <;> simp [List.count_cons]
    | succ n =>
      simp only [List.set_cons_succ, List.getElem?_cons_succ, List.count_cons,
        ih n]
      split <;> cases b <;> simp

/-- Setting an entry to `true` never decreases the `true`-count. -/
theorem count_true_set_le (l : List Bool) (i : ℕ) :
    l.count true ≤ (l.set i true).count true := by
  rw [count_true_set]
  split <;> omega

/-- The conditional set-`true` fold never decreases the `true`-count. -/
theorem foldl_setTrue_count_le (cond : ℕ → Prop) [DecidablePred cond]
    (idxs : List ℕ) : ∀ st : List Bool,
    st.count true ≤
      (idxs.foldl (fun s i => if cond i then s.set i true else s) st).count true := by
  induction idxs with
  | nil => intro st; exact le_refl _
  | cons i is ih =>
    intro st
    simp only [List.foldl_cons]
    refine le_trans ?_ (ih _)
    split
    · exact count_true_set_le st i
    · exact le_refl _

/-- Unconditional set-`true` fold (the initial-adopter write): pointwise
description. -/
theorem foldl_set_getElem (sample : List ℕ) : ∀ (st : List Bool) (j : ℕ),
    (sample.foldl (fun s i => s.set i true) st)[j]? =
      if j ∈ sample then st[j]?.map (fun _ => true) else st[j]? := by
  induction sample with
  | nil => intro st j; simp
  | cons i is ih =>
    intro st j
    simp only [List.foldl_cons]
    rw [ih]
    by_cases hji : j = i
    · subst hji
      rw [List.getElem?_set_self']
      by_cases hmem : j ∈ is
      · rw [if_pos hmem, if_pos (List.mem_cons_self j is)]
        cases st[j]? <;> simp [Function.const]
      · rw [if_neg hmem, if_pos (List.mem_cons_self j is)]
        cases st[j]? <;> simp [Function.const]
    · rw [List.getElem?_set_ne (fun h => hji h.symm)]
      by_cases hmem : j ∈ is
      · rw [if_pos hmem, if_pos (List.mem_cons_of_mem i hmem)]
      · rw [if_neg hmem,
          if_neg (fun h => (List.mem_cons.mp h).elim hji hmem)]

/-- Writing `true` at a duplicate-free family of in-range, currently-`false`
indices raises the `true`-count by exactly the family's size. -/
theorem foldl_set_count (sample : List ℕ) : ∀ st : List Bool,
    sample.Nodup → (∀ j ∈ sample, st[j]? = some false) →
    (sample.foldl (fun s i => s.set i true) st).count true
      = st.count true + sample.length := by
  induction sample with
  | nil => intro st _ _; simp
  | cons i is ih =>
    intro st hnd hfresh
    simp only [List.foldl_cons, List.length_cons]
    have hi : st[i]? = some false := hfresh i (List.mem_cons_self i is)
    have h1 : (st.set i true).count true = st.count true + 1 := by
      rw [count_true_set, if_pos hi]
    rw [ih (st.set i true) (List.Nodup.of_cons hnd) ?_, h1]
    · omega
    · intro j hj
      have hji : j ≠ i := fun h => (List.nodup_cons.mp hnd).1 (h ▸ hj)
      rw [List.getElem?_set_ne (fun h => hji h.symm)]
      exact hfresh j (List.mem_cons_of_mem i hj)

/-! ### Helper lemmas: the simulator components -/

/-- Membership in `np.where(~has_adopted & can_afford)[0]`. -/
theorem mem_potentialAdoptersIdx {st ca : List Bool} {j : ℕ} :
    j ∈ potentialAdoptersIdx st ca ↔
      j < st.length ∧ st.getD j false = false ∧ ca.getD j false = true := by
  unfold potentialAdoptersIdx
  simp [List.mem_filter, List.mem_range]

/-- Membership in `np.where(can_afford)[0]`. -/
theorem mem_affordIdx {ca : List Bool} {N j : ℕ} :
    j ∈ affordIdx ca N ↔ j < N ∧ ca.getD j false = true := by
  unfold affordIdx
  simp [List.mem_filter, List.mem_range]

/-- `stepAgents` reads back as the conditional set-`true` fold. -/
theorem stepAgents_getElem (p q : ℚ) (N curr : ℕ) (u : ℕ → ℚ) (idxs : List ℕ)
    (st : List Bool) (j : ℕ) :
    (stepAgents p q N curr u idxs st)[j]? =
      if j ∈ idxs ∧ u j < probAdopt p q curr N then st[j]?.map (fun _ => true)
      else st[j]? :=
  foldl_setTrue_getElem (fun i => u i < probAdopt p q curr N) idxs st j

/-- The per-agent scan preserves the vector length. -/
theorem stepAgents_length (p q : ℚ) (N curr : ℕ) (u : ℕ → ℚ) (idxs : List ℕ)
    (st : List Bool) :
    (stepAgents p q N curr u idxs st).length = st.length :=
  foldl_setTrue_length (fun i => u i < probAdopt p q curr N) idxs st

/-- Pointwise description of one loop iteration: agent `j` ends the period
adopted iff it was eligible and its draw succeeded, or it was already
adopted. -/
theorem stepSim_getElem (p q : ℚ) (N : ℕ) (ca : List Bool) (u : ℕ → ℚ)
    (st : List Bool) (j : ℕ) :
    (stepSim p q N ca u st)[j]? =
      if j ∈ potentialAdoptersIdx st ca ∧ u j < probAdopt p q (boolSum st) N
      then st[j]?.map (fun _ => true) else st[j]? :=
  stepAgents_getElem p q N (boolSum st) u (potentialAdoptersIdx st ca) st j

/-- One loop iteration preserves the vector length. -/
theorem stepSim_length (p q : ℚ) (N : ℕ) (ca : List Bool) (u : ℕ → ℚ)
    (st : List Bool) : (stepSim p q N ca u st).length = st.length :=
  stepAgents_length p q N (boolSum st) u (potentialAdoptersIdx st ca) st

/-- Once adopted, still adopted after a loop iteration. -/
theorem stepSim_preserves_true (p q : ℚ) (N : ℕ) (ca : List Bool) (u : ℕ → ℚ)
    (st : List Bool) (j : ℕ) (h : st[j]? = some true) :
    (stepSim p q N ca u st)[j]? = some true := by
  rw [stepSim_getElem]
  split <;> simp [h]

/-- A loop iteration never decreases the adopter count. -/
theorem boolSum_stepSim_le (p q : ℚ) (N : ℕ) (ca : List Bool) (u : ℕ → ℚ)
    (st : List Bool) : boolSum st ≤ boolSum (stepSim p q N ca u st) :=
  foldl_setTrue_count_le (fun i => u i < probAdopt p q (boolSum st) N)
    (potentialAdoptersIdx st ca) st

/-- A loop iteration only flips agents that are affordable, so it preserves
the adopted-implies-affordable invariant. -/
theorem stepSim_invariant (p q : ℚ) (N : ℕ) (ca : List Bool) (u : ℕ → ℚ)
    (st : List Bool)
    (hinv : ∀ j, st.getD j false = true → ca.getD j false = true) (j : ℕ)
    (hj : (stepSim p q N ca u st).getD j false = true) :
    ca.getD j false = true := by
  rw [getD_eq_true_iff, stepSim_getElem] at hj
  split at hj
  case isTrue h => exact (mem_potentialAdoptersIdx.mp h.1).2.2
  case isFalse h => exact hinv j ((getD_eq_true_iff st j).mpr hj)

/-- When no agent is both unadopted and affordable, a loop iteration is the
identity (the per-agent scan is over an empty index set). -/
theorem stepSim_saturated (p q : ℚ) (N : ℕ) (ca : List Bool) (u : ℕ → ℚ)
    (st : List Bool) (h : potentialAdoptersIdx st ca = []) :
    stepSim p q N ca u st = st := by
  unfold stepSim
  rw [h]
  rfl

/-- Unrolling `stateAfter` from the front: `k+1` periods from period `t`
are one period at `t` followed by `k` periods from `t+1`. -/
theorem stateAfter_succ_left (p q : ℚ) (N : ℕ) (ca : List Bool)
    (u : ℕ → ℕ → ℚ) (t : ℕ) (st : List Bool) : ∀ k : ℕ,
    stateAfter p q N ca u t st (k + 1) =
      stateAfter p q N ca u (t + 1) (stepSim p q N ca (u t) st) k := by
  intro k
  induction k with
  | zero => simp [stateAfter]
  | succ k ih =>
    show stepSim p q N ca (u (t + (k + 1))) (stateAfter p q N ca u t st (k + 1))
        = stepSim p q N ca (u ((t + 1) + k)) _
    rw [ih]
    have : t + (k + 1) = (t + 1) + k := by omega
    rw [this]

/-- The timeline built by the loop has exactly one entry per period. -/
theorem runLoop_timeline_length (p q : ℚ) (N : ℕ) (ca : List Bool)
    (u : ℕ → ℕ → ℚ) : ∀ (T t : ℕ) (st : List Bool),
    (runLoop p q N ca u t T st).1.length = T := by
  intro T
  induction T with
  | zero => intro t st; rfl
  | succ T ih =>
    intro t st
    show ((boolSum st) :: _).length = T + 1
    rw [List.length_cons, ih]

/-- Timeline entry `k` is the adopter count at the start of period `k`,
i.e. after exactly `k` periods of updates. -/
theorem runLoop_timeline_getElem (p q : ℚ) (N : ℕ) (ca : List Bool)
    (u : ℕ → ℕ → ℚ) : ∀ (T t k : ℕ) (st : List Bool), k < T →
    (runLoop p q N ca u t T st).1[k]? =
      some (boolSum (stateAfter p q N ca u t st k)) := by
  intro T
  induction T with
  | zero => intro t k st h; exact absurd h (Nat.not_lt_zero k)
  | succ T ih =>
    intro t k st hk
    cases k with
    | zero => simp [runLoop, stateAfter]
    | succ k =>
      show ((boolSum st) :: _)[k + 1]? = _
      rw [List.getElem?_cons_succ, ih (t + 1) k _ (by omega),
        stateAfter_succ_left]

/-- The state the loop returns is the state after all `T` periods. -/
theorem runLoop_final (p q : ℚ) (N : ℕ) (ca : List Bool) (u : ℕ → ℕ → ℚ) :
    ∀ (T t : ℕ) (st : List Bool),
    (runLoop p q N ca u t T st).2 = stateAfter p q N ca u t st T := by
  intro T
  induction T with
  | zero => intro t st; rfl
  | succ T ih =>
    intro t st
    show (runLoop p q N ca u (t + 1) T (stepSim p q N ca (u t) st)).2 = _
    rw [ih, stateAfter_succ_left]

/-! ### Helper lemmas: initialization and the full run -/

/-- Pointwise description of the initial adoption state: `true` exactly at
the sampled indices (within range). -/
theorem initAdopted_getElem (N : ℕ) (sample : List ℕ) (j : ℕ) :
    (initAdopted N sample)[j]? =
      if j < N then some (decide (j ∈ sample)) else none := by
  unfold initAdopted
  rw [foldl_set_getElem]
  by_cases hmem : j ∈ sample
  · rw [if_pos hmem]
    by_cases hj : j < N
    · simp [List.getElem?_replicate, hj, hmem]
    · simp [List.getElem?_replicate, hj]
  · rw [if_neg hmem]
    rw [List.getElem?_replicate]
    by_cases hj : j < N
    · simp [hj, hmem]
    · simp [hj]

/-- A duplicate-free, in-range initial sample yields exactly
`sample.length` initial adopters. -/
theorem boolSum_initAdopted (N : ℕ) (sample : List ℕ)
    (hnd : sample.Nodup) (hlt : ∀ j ∈ sample, j < N) :
    boolSum (initAdopted N sample) = sample.length := by
  unfold boolSum initAdopted
  rw [foldl_set_count sample _ hnd ?_]
  · simp [List.count_replicate]
  · intro j hj
    rw [List.getElem?_replicate, if_pos (hlt j hj)]

/-- The last timeline entry is the adopter count at the start of the final
period (after `T - 1` periods of updates). -/
theorem runLoop_timeline_getLast (p q : ℚ) (N : ℕ) (ca : List Bool)
    (u : ℕ → ℕ → ℚ) (T t : ℕ) (st : List Bool) (hT : 0 < T) :
    (runLoop p q N ca u t T st).1.getLastD 0 =
      boolSum (stateAfter p q N ca u t st (T - 1)) := by
  rw [List.getLastD_eq_getLast?, List.getLast?_eq_getElem?,
    runLoop_timeline_length,
    runLoop_timeline_getElem p q N ca u T t (T - 1) st (by omega)]
  rfl

/-- A failing income draw aborts the whole run with the same exception. -/
theorem runSimulation_err_of_simIncomes (cfg : Config) (d : ℕ → ℚ)
    (sample : List ℕ) (u : ℕ → ℕ → ℚ) (e : SimError)
    (h : simIncomes cfg d = .error e) :
    runSimulation cfg d sample u = .error e := by
  unfold runSimulation
  rw [h]
  rfl

/-- When the income draw succeeds but the affordable pool is smaller than
the requested initial-adopter count, the run aborts with the `ValueError`
that `np.random.choice` raises. -/
theorem runSimulation_choice_fail (cfg : Config) (d : ℕ → ℚ)
    (sample : List ℕ) (u : ℕ → ℕ → ℚ) (inc : List ℚ)
    (hinc : simIncomes cfg d = .ok inc)
    (hsmall : (affordIdx (mkCanAfford inc cfg.incomeThreshold)
        cfg.populationSize.toNat).length
      < initialAdoptersCount cfg.populationSize.toNat) :
    runSimulation cfg d sample u = .error .valueError := by
  unfold runSimulation npChoice
  rw [hinc]
  show Except.bind _ _ = _
  simp only [Except.bind]
  rw [if_pos hsmall]
  rfl

/-- Success-path formula for the whole run. -/
theorem runSimulation_ok (cfg : Config) (d : ℕ → ℚ) (sample : List ℕ)
    (u : ℕ → ℕ → ℚ) (inc : List ℚ)
    (hinc : simIncomes cfg d = .ok inc)
    (hbig : initialAdoptersCount cfg.populationSize.toNat ≤
      (affordIdx (mkCanAfford inc cfg.incomeThreshold)
        cfg.populationSize.toNat).length) :
    runSimulation cfg d sample u = .ok
      { incomes := inc
        can_afford := mkCanAfford inc cfg.incomeThreshold
        adoption_timeline :=
          (runLoop cfg.p cfg.q cfg.populationSize.toNat
            (mkCanAfford inc cfg.incomeThreshold) u 0 cfg.timePeriods
            (initAdopted cfg.populationSize.toNat sample)).1
        has_adopted :=
          (runLoop cfg.p cfg.q cfg.populationSize.toNat
            (mkCanAfford inc cfg.incomeThreshold) u 0 cfg.timePeriods
            (initAdopted cfg.populationSize.toNat sample)).2 } := by
  unfold runSimulation npChoice
  rw [hinc]
  show Except.bind _ _ = _
  simp only [Except.bind]
  rw [if_neg (by omega)]
  rfl

/-- Inversion of a successful run: the components of the result are the
ones the script computed on the success path. -/
theorem runSimulation_ok_inv (cfg : Config) (d : ℕ → ℚ) (sample : List ℕ)
    (u : ℕ → ℕ → ℚ) (r : SimResult)
    (hok : runSimulation cfg d sample u = .ok r) :
    simIncomes cfg d = .ok r.incomes ∧
    r.can_afford = mkCanAfford r.incomes cfg.incomeThreshold ∧
    initialAdoptersCount cfg.populationSize.toNat ≤
      (affordIdx r.can_afford cfg.populationSize.toNat).length ∧
    r.adoption_timeline =
      (runLoop cfg.p cfg.q cfg.populationSize.toNat r.can_afford u 0
        cfg.timePeriods (initAdopted cfg.populationSize.toNat sample)).1 ∧
    r.has_adopted =
      (runLoop cfg.p cfg.q cfg.populationSize.toNat r.can_afford u 0
        cfg.timePeriods (initAdopted cfg.populationSize.toNat sample)).2 := by
  cases hinc : simIncomes cfg d with
  | error e =>
    rw [runSimulation_err_of_simIncomes cfg d sample u e hinc] at hok
    exact absurd hok (by simp)
  | ok inc =>
    by_cases hsize : (affordIdx (mkCanAfford inc cfg.incomeThreshold)
        cfg.populationSize.toNat).length
        < initialAdoptersCount cfg.populationSize.toNat
    · rw [runSimulation_choice_fail cfg d sample u inc hinc hsize] at hok
      exact absurd hok (by simp)
    · rw [runSimulation_ok cfg d sample u inc hinc (Nat.le_of_not_lt hsize)] at hok
      injection hok with hr
      rw [← hr]
      exact ⟨rfl, rfl, Nat.le_of_not_lt hsize, rfl, rfl⟩

/-- For a positive gini and non-negative population the income draw
succeeds and is the scaled raw sample. -/
theorem simIncomes_ok (cfg : Config) (d : ℕ → ℚ)
    (hg : 0 < cfg.gini) (hN : 0 ≤ cfg.populationSize) :
    simIncomes cfg d =
      .ok (((List.range cfg.populationSize.toNat).map d).map
        (fun x => x * 20000)) := by
  have h1 : ¬((1 : ℚ) / cfg.gini ≤ 0 ∨ cfg.populationSize < 0) := by
    push_neg
    exact ⟨one_div_pos.mpr hg, hN⟩
  unfold simIncomes pyInv npPareto
  rw [if_neg (ne_of_gt hg)]
  show Except.bind _ _ = _
  simp only [Except.bind]
  rw [if_neg h1]
  rfl

/-- A zero gini makes `1/gini` raise `ZeroDivisionError`. -/
theorem simIncomes_zeroDiv (cfg : Config) (d : ℕ → ℚ) (h : cfg.gini = 0) :
    simIncomes cfg d = .error .zeroDivisionError := by
  unfold simIncomes pyInv
  rw [if_pos h]
  rfl

/-- A non-positive Pareto shape or a negative sample size makes
`np.random.pareto` raise `ValueError`. -/
theorem simIncomes_valueError (cfg : Config) (d : ℕ → ℚ)
    (hne : cfg.gini ≠ 0)
    (h : 1 / cfg.gini ≤ 0 ∨ cfg.populationSize < 0) :
    simIncomes cfg d = .error .valueError := by
  unfold simIncomes pyInv npPareto
  rw [if_neg hne]
  show Except.bind _ _ = _
  simp only [Except.bind]
  rw [if_pos h]
  rfl

/-- Once the eligible set of a state is empty, every later state of the
loop is that same state (each further period is the identity). -/
theorem stateAfter_saturated (p q : ℚ) (N : ℕ) (ca : List Bool)
    (u : ℕ → ℕ → ℚ) (t0 : ℕ) (st : List Bool) (t : ℕ)
    (hsat : potentialAdoptersIdx (stateAfter p q N ca u t0 st t) ca = []) :
    ∀ s, t ≤ s → stateAfter p q N ca u t0 st s =
      stateAfter p q N ca u t0 st t := by
  intro s
  induction s with
  | zero =>
    intro hts
    have ht0 : t = 0 := Nat.le_zero.mp hts
    rw [ht0]
  | succ s ih =>
    intro hts
    rcases Nat.lt_or_ge t (s + 1) with hlt | hge
    · have hts' : t ≤ s := by omega
      show stepSim p q N ca (u (t0 + s)) (stateAfter p q N ca u t0 st s) = _
      rw [ih hts', stepSim_saturated p q N ca (u (t0 + s)) _ hsat]
    · have heq : t = s + 1 := by omega
      rw [heq]

/-! ### The claims -/

/-- **C6.** The market-penetration metric equals
`final_adopters / addressable_market * 100` whenever the addressable
market is positive, and is defined as `0` when the addressable market is
empty, so the division is guarded and never evaluated with a zero
divisor. -/
theorem market_penetration_guarded (r : SimResult) :
    (0 < totalAddressableMarket r →
      marketPenetration r =
        ((finalAdopters r : ℚ) / (totalAddressableMarket r : ℚ)) * 100) ∧
    (totalAddressableMarket r = 0 → marketPenetration r = 0) := by
  constructor
  · intro h
    rw [marketPenetration, if_pos h]
  · intro h
    rw [marketPenetration, if_neg (by omega)]

/-- Witness for C6 at a one-agent result: the market is addressable and
the metric evaluates to the division formula. -/
theorem market_penetration_guarded_witness :
    marketPenetration ⟨[40000], [true], [1], [true]⟩ = 100 := by
  have h := (market_penetration_guarded ⟨[40000], [true], [1], [true]⟩).1
    (by decide)
  rw [h]
  decide

/-- **C8.** The adoption probability `p + q*f` is not clamped: in a period
where it is at least `1`, every draw from `[0,1)` is below it, so every
not-yet-adopted affordable agent adopts in that period. -/
theorem unclamped_prob_saturates (p q : ℚ) (N : ℕ) (ca : List Bool)
    (u : ℕ → ℚ) (st : List Bool)
    (hprob : 1 ≤ probAdopt p q (boolSum st) N)
    (hdraw : ∀ i ∈ potentialAdoptersIdx st ca, u i < 1)
    (i : ℕ) (hi : i ∈ potentialAdoptersIdx st ca) :
    (stepSim p q N ca u st).getD i false = true := by
  rw [getD_eq_true_iff, stepSim_getElem,
    if_pos ⟨hi, lt_of_lt_of_le (hdraw i hi) hprob⟩]
  obtain ⟨hlen, -, -⟩ := mem_potentialAdoptersIdx.mp hi
  rw [List.getElem?_eq_getElem hlen]
  rfl

/-- Witness for C8: with `p = 1` every one of four eligible agents adopts
in a single period. -/
theorem unclamped_prob_saturates_witness :
    (stepSim 1 0 4 (List.replicate 4 true) (fun _ => 0)
      (List.replicate 4 false)).getD 2 false = true :=
  unclamped_prob_saturates 1 0 4 (List.replicate 4 true) (fun _ => 0)
    (List.replicate 4 false) (by decide) (by decide) 2 (by decide)

/-- **C9.** Within one period all draws compare against the adoption
fraction frozen at the start of the period and each eligible agent's draw
is keyed to its identity, so scanning the eligible agents in any order
yields the same post-period adoption state as the script's ascending
scan. -/
theorem step_order_independent (p q : ℚ) (N : ℕ) (ca : List Bool)
    (u : ℕ → ℚ) (st : List Bool) (order : List ℕ)
    (hperm : order.Perm (potentialAdoptersIdx st ca)) :
    stepAgents p q N (boolSum st) u order st = stepSim p q N ca u st := by
  unfold stepSim stepAgents
  apply List.Perm.foldl_eq' hperm
  intro x _hx y _hy z
  by_cases hxy : x = y
  · rw [hxy]
  · by_cases hcx : u x < probAdopt p q (boolSum st) N <;>
      by_cases hcy : u y < probAdopt p q (boolSum st) N <;>
      simp [hcx, hcy]
    exact List.set_comm true true z hxy

/-- Witness for C9: a reversed scan order gives the same state as the
ascending one. -/
theorem step_order_independent_witness :
    stepAgents (1/10) (1/2) 4 (boolSum (List.replicate 4 false))
      (fun i => if i = 2 then 0 else 1/2) [3, 2, 1, 0]
      (List.replicate 4 false) =
    stepSim (1/10) (1/2) 4 (List.replicate 4 true)
      (fun i => if i = 2 then 0 else 1/2) (List.replicate 4 false) :=
  step_order_independent (1/10) (1/2) 4 (List.replicate 4 true)
    (fun i => if i = 2 then 0 else 1/2) (List.replicate 4 false)
    [3, 2, 1, 0] (by decide)

deriving instance DecidableEq for Except

/-- Fixture: a 20-agent run, all affordable, four periods; agent 10 is the
only one whose draws succeed, so it adopts in period 0. -/
def wCfg : Config := ⟨20, 1/2, 1/10, 1/2, 15000, 4⟩

/-- Fixture: raw Pareto draws (all 2, giving incomes of 40000). -/
def wD : ℕ → ℚ := fun _ => 2

/-- Fixture: the initial-adopter sample, agents 0–9. -/
def wSample : List ℕ := List.range 10

/-- Fixture: per-period per-agent uniform draws. -/
def wU : ℕ → ℕ → ℚ := fun _ i => if i = 10 then 0 else 1/2

/-- Fixture: the result of the fixture run (timeline `[10, 11, 11, 11]`). -/
def wRes : SimResult :=
  ((runSimulation wCfg wD wSample wU).toOption).getD ⟨[], [], [], []⟩

/-- **C1.** For every configuration on which the run succeeds, the adoption
timeline has length exactly `time_periods`; entry `t` is the adopter count
recorded at the start of period `t`, before that period's updates; and the
loop has no early exit: from any period `t` whose eligible set is already
empty, every later entry repeats period `t`'s snapshot value. -/
theorem timeline_length_and_snapshots (cfg : Config) (d : ℕ → ℚ)
    (sample : List ℕ) (u : ℕ → ℕ → ℚ) (r : SimResult)
    (hok : runSimulation cfg d sample u = .ok r) :
    r.adoption_timeline.length = cfg.timePeriods ∧
    (∀ t, t < cfg.timePeriods →
      r.adoption_timeline[t]? = some (boolSum (stateAfter cfg.p cfg.q
        cfg.populationSize.toNat r.can_afford u 0
        (initAdopted cfg.populationSize.toNat sample) t))) ∧
    (∀ t s, t ≤ s → s < cfg.timePeriods →
      potentialAdoptersIdx (stateAfter cfg.p cfg.q cfg.populationSize.toNat
          r.can_afford u 0 (initAdopted cfg.populationSize.toNat sample) t)
        r.can_afford = [] →
      r.adoption_timeline[s]? = r.adoption_timeline[t]?) := by
  obtain ⟨-, -, -, htl, -⟩ := runSimulation_ok_inv cfg d sample u r hok
  refine ⟨?_, ?_, ?_⟩
  · rw [htl, runLoop_timeline_length]
  · intro t ht
    rw [htl, runLoop_timeline_getElem cfg.p cfg.q cfg.populationSize.toNat
      r.can_afford u cfg.timePeriods 0 t
      (initAdopted cfg.populationSize.toNat sample) ht]
  · intro t s hts hs hsat
    rw [htl, runLoop_timeline_getElem cfg.p cfg.q cfg.populationSize.toNat
        r.can_afford u cfg.timePeriods 0 s
        (initAdopted cfg.populationSize.toNat sample) hs,
      runLoop_timeline_getElem cfg.p cfg.q cfg.populationSize.toNat
        r.can_afford u cfg.timePeriods 0 t
        (initAdopted cfg.populationSize.toNat sample) (lt_of_le_of_lt hts hs),
      stateAfter_saturated cfg.p cfg.q cfg.populationSize.toNat r.can_afford
        u 0 (initAdopted cfg.populationSize.toNat sample) t hsat s hts]

/-- Witness for C1 on the fixture run: four periods, four entries. -/
theorem timeline_length_and_snapshots_witness :
    wRes.adoption_timeline.length = 4 :=
  (timeline_length_and_snapshots wCfg wD wSample wU wRes (by decide)).1

/-- **C2.** Adopted implies affordable at every point of a successful run:
after initialization (`t = 0`), after each period `t`, and in the final
adoption state, an adopted agent is affordable — because the initial
sample is drawn from the affordable pool and each period only flips agents
that are not yet adopted and affordable. -/
theorem adopted_implies_affordable (cfg : Config) (d : ℕ → ℚ)
    (sample : List ℕ) (u : ℕ → ℕ → ℚ) (r : SimResult)
    (hok : runSimulation cfg d sample u = .ok r)
    (hsample : ∀ i ∈ sample,
      i ∈ affordIdx r.can_afford cfg.populationSize.toNat)
    (t i : ℕ) :
    ((stateAfter cfg.p cfg.q cfg.populationSize.toNat r.can_afford u 0
        (initAdopted cfg.populationSize.toNat sample) t).getD i false = true →
      r.can_afford.getD i false = true) ∧
    (r.has_adopted.getD i false = true →
      r.can_afford.getD i false = true) := by
  obtain ⟨-, -, -, -, hfin⟩ := runSimulation_ok_inv cfg d sample u r hok
  have hinit : ∀ j,
      (initAdopted cfg.populationSize.toNat sample).getD j false = true →
      r.can_afford.getD j false = true := by
    intro j hj
    rw [getD_eq_true_iff, initAdopted_getElem] at hj
    by_cases hjN : j < cfg.populationSize.toNat
    · rw [if_pos hjN] at hj
      have hjmem : j ∈ sample := by simpa using hj
      exact (mem_affordIdx.mp (hsample j hjmem)).2
    · rw [if_neg hjN] at hj
      exact absurd hj (by simp)
  have hinv : ∀ t j,
      (stateAfter cfg.p cfg.q cfg.populationSize.toNat r.can_afford u 0
        (initAdopted cfg.populationSize.toNat sample) t).getD j false = true →
      r.can_afford.getD j false = true := by
    intro t
    induction t with
    | zero => exact hinit
    | succ t ih =>
      intro j hj
      exact stepSim_invariant cfg.p cfg.q cfg.populationSize.toNat
        r.can_afford (u (0 + t)) _ ih j hj
  refine ⟨hinv t i, ?_⟩
  intro hadopt
  rw [hfin, runLoop_final] at hadopt
  exact hinv cfg.timePeriods i hadopt

/-- Witness for C2 on the fixture run: agent 10 adopts during period 0 and
is indeed affordable. -/
theorem adopted_implies_affordable_witness :
    wRes.can_afford.getD 10 false = true :=
  (adopted_implies_affordable wCfg wD wSample wU wRes (by decide) (by decide)
    1 10).1 (by decide)

/-- **C3.** Adoption is monotone: an agent adopted after `t` periods is
still adopted after `t + 1` periods, and consequently the recorded
timeline is non-decreasing, `timeline[t] ≤ timeline[t+1]`. -/
theorem adoption_monotone (cfg : Config) (d : ℕ → ℚ) (sample : List ℕ)
    (u : ℕ → ℕ → ℚ) (r : SimResult)
    (hok : runSimulation cfg d sample u = .ok r) :
    (∀ t i, (stateAfter cfg.p cfg.q cfg.populationSize.toNat r.can_afford u 0
        (initAdopted cfg.populationSize.toNat sample) t).getD i false = true →
      (stateAfter cfg.p cfg.q cfg.populationSize.toNat r.can_afford u 0
        (initAdopted cfg.populationSize.toNat sample) (t + 1)).getD i false
        = true) ∧
    (∀ t, t + 1 < cfg.timePeriods →
      r.adoption_timeline.getD t 0 ≤ r.adoption_timeline.getD (t + 1) 0) := by
  obtain ⟨-, -, -, htl, -⟩ := runSimulation_ok_inv cfg d sample u r hok
  constructor
  · intro t i hi
    rw [getD_eq_true_iff] at hi ⊢
    exact stepSim_preserves_true cfg.p cfg.q cfg.populationSize.toNat
      r.can_afford (u (0 + t)) _ i hi
  · intro t ht
    rw [htl, List.getD_eq_getElem?_getD, List.getD_eq_getElem?_getD,
      runLoop_timeline_getElem cfg.p cfg.q cfg.populationSize.toNat
        r.can_afford u cfg.timePeriods 0 t
        (initAdopted cfg.populationSize.toNat sample) (by omega),
      runLoop_timeline_getElem cfg.p cfg.q cfg.populationSize.toNat
        r.can_afford u cfg.timePeriods 0 (t + 1)
        (initAdopted cfg.populationSize.toNat sample) ht]
    simp only [Option.getD_some]
    exact boolSum_stepSim_le cfg.p cfg.q cfg.populationSize.toNat
      r.can_afford (u (0 + t)) _

/-- Witness for C3 on the fixture run: the timeline `[10, 11, 11, 11]` is
non-decreasing at its first step. -/
theorem adoption_monotone_witness :
    wRes.adoption_timeline.getD 0 0 ≤ wRes.adoption_timeline.getD 1 0 :=
  (adoption_monotone wCfg wD wSample wU wRes (by decide)).2 0 (by decide)

/-- Fixture: a valid single-period run (`time_periods = 1`, `p = 1`,
all 20 agents affordable, agents 0–9 initially adopted, all draws 0). -/
def bCfg : Config := ⟨20, 1/2, 1, 0, 15000, 1⟩

/-- Fixture: raw Pareto draws for the single-period run. -/
def bD : ℕ → ℚ := fun _ => 2

/-- Fixture: initial-adopter sample for the single-period run. -/
def bSample : List ℕ := List.range 10

/-- Fixture: uniform draws for the single-period run (all 0, so with
`p = 1` every eligible agent adopts). -/
def bU : ℕ → ℕ → ℚ := fun _ _ => 0

/-- Fixture: result of the single-period run (timeline `[10]`, final state
all 20 adopted). -/
def bRes : SimResult :=
  ((runSimulation bCfg bD bSample bU).toOption).getD ⟨[], [], [], []⟩

/-- **C4 (counterexample).** With 100 agents all earning 20000 against a
threshold of 30000 the affordable pool is empty, smaller than the required
10 initial adopters; the run fails with the `ValueError` raised inside
`np.random.choice`, not with an `InsufficientMarket` error from an
explicit check — the script has no such check. -/
theorem insufficient_market_counterexample :
    runSimulation ⟨100, 1/5, 2/100, 45/100, 30000, 3⟩ (fun _ => 1) []
      (fun _ _ => 0) = .error .valueError ∧
    runSimulation ⟨100, 1/5, 2/100, 45/100, 30000, 3⟩ (fun _ => 1) []
      (fun _ _ => 0) ≠ .error .insufficientMarket := by
  constructor
  · decide
  · decide

/-- **C4 (amended).** If the affordable pool is smaller than the requested
initial-adopter count `max(10, N // 100)`, the run fails before any loop
iteration — but with the uncontrolled `ValueError` that `np.random.choice`
raises when it cannot sample without replacement, there being no explicit
`InsufficientMarket` check. -/
theorem insufficient_market_raises_valueError (cfg : Config) (d : ℕ → ℚ)
    (sample : List ℕ) (u : ℕ → ℕ → ℚ) (inc : List ℚ)
    (hinc : simIncomes cfg d = .ok inc)
    (hsmall : (affordIdx (mkCanAfford inc cfg.incomeThreshold)
        cfg.populationSize.toNat).length
      < initialAdoptersCount cfg.populationSize.toNat) :
    runSimulation cfg d sample u = .error .valueError :=
  runSimulation_choice_fail cfg d sample u inc hinc hsmall

/-- Witness for the amended C4 at the 100-agent, empty-market input. -/
theorem insufficient_market_raises_valueError_witness :
    runSimulation ⟨100, 1/5, 2/100, 45/100, 30000, 3⟩ (fun _ => 1) []
      (fun _ _ => 0) = .error .valueError :=
  insufficient_market_raises_valueError _ (fun _ => 1) [] (fun _ _ => 0)
    (((List.range 100).map (fun _ => (1 : ℚ))).map (fun x => x * 20000))
    (by decide) (by decide)

/-- **C5 (counterexample).** For a negative population the run fails with
numpy's `ValueError`, and for a zero gini with Python's
`ZeroDivisionError` — in no case with an `InvalidParameter` error: the
script has no parameter validation. -/
theorem invalid_parameter_counterexample :
    (runSimulation ⟨-5, 1/2, 0, 0, 0, 3⟩ (fun _ => 1) [] (fun _ _ => 0)
        = .error .valueError ∧
      runSimulation ⟨-5, 1/2, 0, 0, 0, 3⟩ (fun _ => 1) [] (fun _ _ => 0)
        ≠ .error .invalidParameter) ∧
    (runSimulation ⟨100, 0, 0, 0, 0, 3⟩ (fun _ => 1) [] (fun _ _ => 0)
        = .error .zeroDivisionError ∧
      runSimulation ⟨100, 0, 0, 0, 0, 3⟩ (fun _ => 1) [] (fun _ _ => 0)
        ≠ .error .invalidParameter) ∧
    (runSimulation ⟨100, -1/2, 0, 0, 0, 3⟩ (fun _ => 1) [] (fun _ _ => 0)
        = .error .valueError ∧
      runSimulation ⟨100, -1/2, 0, 0, 0, 3⟩ (fun _ => 1) [] (fun _ _ => 0)
        ≠ .error .invalidParameter) := by
  refine ⟨⟨by decide, by decide⟩, ⟨by decide, by decide⟩,
    ⟨by decide, by decide⟩⟩

/-- **C5 (amended).** For `N ≤ 0` or `gini ≤ 0` the run does fail before
producing a result, but with the Python exception of the numpy call that
trips over the value (`ValueError`, or `ZeroDivisionError` for
`gini = 0`), not with a synchronous `InvalidParameter` check. -/
theorem invalid_params_raise_python_errors (cfg : Config) (d : ℕ → ℚ)
    (sample : List ℕ) (u : ℕ → ℕ → ℚ)
    (h : cfg.populationSize ≤ 0 ∨ cfg.gini ≤ 0) :
    runSimulation cfg d sample u = .error .valueError ∨
    runSimulation cfg d sample u = .error .zeroDivisionError := by
  by_cases hg0 : cfg.gini = 0
  · exact Or.inr (runSimulation_err_of_simIncomes cfg d sample u _
      (simIncomes_zeroDiv cfg d hg0))
  · by_cases hgneg : cfg.gini < 0
    · exact Or.inl (runSimulation_err_of_simIncomes cfg d sample u _
        (simIncomes_valueError cfg d hg0
          (Or.inl (le_of_lt (one_div_neg.mpr hgneg)))))
    · have hg : 0 < cfg.gini :=
        lt_of_le_of_ne (not_lt.mp hgneg) (Ne.symm hg0)
      have hpop : cfg.populationSize ≤ 0 := by
        rcases h with h | h
        · exact h
        · exact absurd h (not_le.mpr hg)
      by_cases hneg : cfg.populationSize < 0
      · exact Or.inl (runSimulation_err_of_simIncomes cfg d sample u _
          (simIncomes_valueError cfg d hg0 (Or.inr hneg)))
      · have hz : cfg.populationSize = 0 := le_antisymm hpop (not_lt.mp hneg)
        refine Or.inl (runSimulation_choice_fail cfg d sample u _
          (simIncomes_ok cfg d hg (le_of_eq hz.symm)) ?_)
        have hzn : cfg.populationSize.toNat = 0 := by rw [hz]; rfl
        rw [hzn]
        simp [affordIdx, initialAdoptersCount]

/-- Witness for the amended C5 at the zero-population boundary (`N = 0`
fails only at the sampling call, still with a `ValueError`). -/
theorem invalid_params_raise_python_errors_witness :
    runSimulation ⟨0, 1/2, 0, 0, 0, 3⟩ (fun _ => 1) [] (fun _ _ => 0)
        = .error .valueError ∨
    runSimulation ⟨0, 1/2, 0, 0, 0, 3⟩ (fun _ => 1) [] (fun _ _ => 0)
        = .error .zeroDivisionError :=
  invalid_params_raise_python_errors _ (fun _ => 1) [] (fun _ _ => 0)
    (Or.inl (by decide))

/-- **C7 (counterexample).** A valid single-period run whose timeline is
the single initial snapshot `[10]`, yet whose final adoption state differs
from the initial one: the single period still applies probability updates
(with `p = 1` all 10 remaining agents adopt), refuting "no probability
updates are ever applied". -/
theorem time_periods_one_counterexample :
    runSimulation bCfg bD bSample bU = .ok bRes ∧
    bCfg.timePeriods = 1 ∧
    bRes.adoption_timeline = [boolSum (initAdopted 20 bSample)] ∧
    bRes.has_adopted ≠ initAdopted 20 bSample ∧
    boolSum (initAdopted 20 bSample) = 10 ∧
    boolSum bRes.has_adopted = 20 := by
  refine ⟨by decide, by decide, by decide, by decide, by decide, by decide⟩

/-- **C7 (amended).** With `time_periods = 1` the timeline has exactly one
entry, the initial-adopter count `max(10, N // 100)`; but the single
period does apply one round of probability updates: the final state is
`stepSim` of the initial state, not the initial state itself. -/
theorem time_periods_one_amended (cfg : Config) (d : ℕ → ℚ)
    (sample : List ℕ) (u : ℕ → ℕ → ℚ) (r : SimResult)
    (hok : runSimulation cfg d sample u = .ok r)
    (hT : cfg.timePeriods = 1)
    (hnd : sample.Nodup)
    (hmem : ∀ i ∈ sample,
      i ∈ affordIdx r.can_afford cfg.populationSize.toNat)
    (hlen : sample.length = initialAdoptersCount cfg.populationSize.toNat) :
    r.adoption_timeline = [initialAdoptersCount cfg.populationSize.toNat] ∧
    r.has_adopted = stepSim cfg.p cfg.q cfg.populationSize.toNat
      r.can_afford (u 0) (initAdopted cfg.populationSize.toNat sample) := by
  obtain ⟨-, -, -, htl, hfin⟩ := runSimulation_ok_inv cfg d sample u r hok
  rw [hT] at htl hfin
  have hcount : boolSum (initAdopted cfg.populationSize.toNat sample)
      = initialAdoptersCount cfg.populationSize.toNat := by
    rw [boolSum_initAdopted _ _ hnd
      (fun j hj => (mem_affordIdx.mp (hmem j hj)).1), hlen]
  constructor
  · rw [htl]
    show [boolSum (initAdopted cfg.populationSize.toNat sample)] = _
    rw [hcount]
  · rw [hfin]
    rfl

/-- Witness for the amended C7 on the single-period fixture run. -/
theorem time_periods_one_amended_witness :
    bRes.adoption_timeline = [initialAdoptersCount 20] :=
  (time_periods_one_amended bCfg bD bSample bU bRes (by decide) rfl
    (by decide) (by decide) (by decide)).1

/-- **C10.** The reported final-adopter count is the last timeline entry —
the snapshot taken at the start of the last period, before its updates —
so it is at most the adopted count of the final state, and on the
single-period fixture run it is strictly smaller (snapshot 10 versus 20
finally adopted): agents adopting during the last period are excluded
from the metric. -/
theorem final_adopters_last_snapshot (cfg : Config) (d : ℕ → ℚ)
    (sample : List ℕ) (u : ℕ → ℕ → ℚ) (r : SimResult)
    (hok : runSimulation cfg d sample u = .ok r)
    (hT : 0 < cfg.timePeriods) :
    finalAdopters r = boolSum (stateAfter cfg.p cfg.q
      cfg.populationSize.toNat r.can_afford u 0
      (initAdopted cfg.populationSize.toNat sample)
      (cfg.timePeriods - 1)) ∧
    finalAdopters r ≤ boolSum r.has_adopted ∧
    finalAdopters bRes < boolSum bRes.has_adopted := by
  obtain ⟨-, -, -, htl, hfin⟩ := runSimulation_ok_inv cfg d sample u r hok
  have h1 : finalAdopters r = boolSum (stateAfter cfg.p cfg.q
      cfg.populationSize.toNat r.can_afford u 0
      (initAdopted cfg.populationSize.toNat sample)
      (cfg.timePeriods - 1)) := by
    rw [finalAdopters, htl,
      runLoop_timeline_getLast cfg.p cfg.q cfg.populationSize.toNat
        r.can_afford u cfg.timePeriods 0
        (initAdopted cfg.populationSize.toNat sample) hT]
  refine ⟨h1, ?_, by decide⟩
  rw [h1, hfin, runLoop_final]
  have hTT : cfg.timePeriods = (cfg.timePeriods - 1) + 1 := by omega
  rw [hTT]
  exact boolSum_stepSim_le cfg.p cfg.q cfg.populationSize.toNat
    r.can_afford (u (0 + (cfg.timePeriods - 1))) _

/-- Witness for C10 on the four-period fixture run: the reported final
count is the snapshot after three of the four periods. -/
theorem final_adopters_last_snapshot_witness :
    finalAdopters wRes = boolSum (stateAfter wCfg.p wCfg.q 20
      wRes.can_afford wU 0 (initAdopted 20 wSample) 3) :=
  (final_adopters_last_snapshot wCfg wD wSample wU wRes (by decide)
    (by decide)).1

end AdoptionSim
